import Mathlib

/-!
Shallow embedding of `skater/core/global_interpretation/interpretable_models/brlc.py`
(the `BRLC` Bayesian-rule-list classifier wrapper) together with theorems
settling the frozen claims about it.

Modelling conventions:
* pandas `DataFrame` objects are association lists of named columns;
* Python numbers are rationals (`ℚ`), Python exceptions are the
  constructors of `PyErr` (named after the error taxonomy of the spec);
* fallible code returns `Except PyErr _`;
* the SBRL backend (R package reached through rpy2) is opaque: calls to it
  are represented by a record of the arguments the wrapper hands over;
* code that mutates a Python object is embedded in state-passing style: the
  function returns, next to its result, the final value of the object that
  the caller supplied, so that frame claims are statable.
-/

deriving instance DecidableEq for Except

namespace BRLC

/-- Python exceptions raised by the module, named after the error taxonomy
of the specification.  `invalidArgument` stands for `TypeError` and for
`skater.util.exceptions.DataSetError`; `unsupportedOperation` stands for the
bare `Exception("Supports only binary classification right now")` raised by
`fit`; `nonUniqueEdges` and `labelLengthMismatch` are the two `ValueError`
kinds `pandas.qcut` can raise (non-unique bin edges, and a `labels` argument
whose length differs from the number of bins). -/
inductive PyErr where
  | invalidArgument
  | unsupportedOperation
  | illegalState
  | keyError
  | indexError
  | valueError
  | nonUniqueEdges
  | labelLengthMismatch
deriving DecidableEq, Repr

/-- A scalar value held in a pandas column: a float, an int, a string, or a
`pandas.Interval` (the bin labels `qcut` produces when `labels=None`). -/
inductive PyVal where
  | num (x : ℚ)
  | int (n : ℤ)
  | str (s : String)
  | interval (lo hi : ℚ)
deriving DecidableEq, Repr

/-- A pandas column: the list of its values in row order. -/
abbrev Column := List PyVal

/-- A pandas `DataFrame`: an association list of named columns. -/
abbrev DataFrame := List (String × Column)

/-- An argument that the Python code checks with
`isinstance(_, pd.DataFrame)`: either an actual frame or any other object. -/
inductive PdInput where
  | frame (df : DataFrame)
  | nonFrame
deriving DecidableEq

/-- `str(v)` for a column value (used by `astype(str)` and by the
`as.factor` conversion before backend calls). -/
def pyStr : PyVal → String
  | .num x => toString x
  | .int n => toString n
  | .str s => s
  | .interval lo hi => "(" ++ toString lo ++ ", " ++ toString hi ++ "]"

/-- Python dict / pandas label assignment `d[k] = v` on an association list:
replace the first binding of `k`, or append a new binding at the end. -/
def dictSet {κ V : Type} [DecidableEq κ] : List (κ × V) → κ → V → List (κ × V)
  | [], k, v => [(k, v)]
  | (k1, v1) :: t, k, v => if k1 = k then (k, v) :: t else (k1, v1) :: dictSet t k v

/-- Lookup of a key in an association list (Python `d[k]`, `None` when the
key is missing). -/
def dictGet {κ V : Type} [DecidableEq κ] : List (κ × V) → κ → Option V
  | [], _ => none
  | (k1, v1) :: t, k => if k1 = k then some v1 else dictGet t k

/-- Strict comparison key used by `Series.rank(method="first")`: entry `j`
ranks strictly before entry `i` when its value is smaller, or when the
values are equal and `j` occurs first (ties broken by occurrence order). -/
def keyLt (col : List ℚ) (j i : ℕ) : Prop :=
  col.getD j 0 < col.getD i 0 ∨ (col.getD j 0 = col.getD i 0 ∧ j < i)

instance (col : List ℚ) (j i : ℕ) : Decidable (keyLt col j i) := by
  unfold keyLt; infer_instance

/-- `X[c].rank(method="first")`: the rank of entry `i` is one plus the
number of entries that compare strictly before it under `keyLt` (pandas
returns float ranks, hence values in `ℚ`). -/
def rankFirst (col : List ℚ) : List ℚ :=
  (List.range col.length).map
    (fun i => (((List.range col.length).countP (fun j => decide (keyLt col j i)) + 1 : ℕ) : ℚ))

/-- Ascending sort of a rational column (`numpy` sorts the data before
taking quantiles). -/
def sortRat (col : List ℚ) : List ℚ := List.insertionSort (· ≤ ·) col

/-- Linear-interpolation quantile of an already sorted sample, as computed
by `numpy.percentile(interpolation="linear")`, which pandas `qcut` uses:
the quantile `q` sits at fractional position `q * (n - 1)`. -/
def quantileSorted (s : List ℚ) (q : ℚ) : ℚ :=
  let pos : ℚ := q * ((s.length : ℚ) - 1)
  let i : ℕ := (⌊pos⌋).toNat
  if i + 1 < s.length then
    s.getD i 0 + (pos - (⌊pos⌋ : ℚ)) * (s.getD (i + 1) 0 - s.getD i 0)
  else
    s.getD i 0

/-- Quantile of an arbitrary rational column (sort, then interpolate). -/
def pdQuantile (col : List ℚ) (q : ℚ) : ℚ := quantileSorted (sortRat col) q

/-- The `q` argument of `pandas.qcut`: an integer number of equal-frequency
bins, or an explicit list of quantile cut points. -/
inductive QSpec where
  | count (k : ℕ)
  | cuts (qs : List ℚ)
deriving DecidableEq

/-- The `duplicates` keyword of `pandas.qcut`. -/
inductive Dup where
  | raise
  | drop
deriving DecidableEq

/-- The quantile cut points requested by the `q` argument: an integer `k`
means the `k + 1` evenly spaced quantiles `0, 1/k, ..., 1`. -/
def qspecCuts : QSpec → List ℚ
  | .count k => (List.range (k + 1)).map (fun i => (i : ℚ) / (k : ℚ))
  | .cuts l => l

/-- Index of the half-open bin `(e_i, e_(i+1)]` that `v` falls into, given
the ascending edge list; the lowest bin also contains its left edge
(`include_lowest` behaviour of `qcut`).  For `v` in bin `i`, exactly `i` of
the internal edges (all edges but the first) are below `v`. -/
def binIdx (edges : List ℚ) (v : ℚ) : ℕ :=
  (edges.drop 1).countP (fun e => decide (e < v))

/-- `pandas.qcut(col, q, labels, precision, duplicates)`.  Quantile edges
are computed from the data itself; equal edges are deduplicated, and with
`duplicates="raise"` (the default) their presence raises the famous
non-unique-bin-edges `ValueError`, while with `duplicates="drop"` they are
dropped silently.  With an explicit `labels` list whose length differs from
the resulting bin count, `qcut` raises a `ValueError` (modelled as
`labelLengthMismatch`); with `labels=None` it labels each value with its
bin interval.  The `precision` argument only affects the textual rounding
of interval labels and is not modelled beyond being passed along. -/
def pdQcut (col : List ℚ) (q : QSpec) (labels : Option (List ℤ)) (_precision : ℕ)
    (duplicates : Dup) : Except PyErr Column :=
  let edges : List ℚ := (qspecCuts q).map (pdQuantile col)
  let uedges : List ℚ := edges.dedup
  if uedges.length ≠ edges.length ∧ duplicates = .raise then
    .error .nonUniqueEdges
  else
    match labels with
    | some ls =>
        if ls.length ≠ uedges.length - 1 then .error .labelLengthMismatch
        else .ok (col.map (fun v => .int (ls.getD (binIdx uedges v) 0)))
    | none =>
        .ok (col.map (fun v =>
          .interval (uedges.getD (binIdx uedges v) 0) (uedges.getD (binIdx uedges v + 1) 0)))

/-- The `labels_for_bin` / `bin_labels` argument: omitted (`None`), the
literal string `"default"` (the default value of `fit`), or an explicit
label list. -/
inductive LabelsArg where
  | noneArg
  | defaultStr
  | labels (ls : List ℤ)
deriving DecidableEq

/-- Values of a column coerced to rationals for ranking; `rank` (and the
quantile arithmetic after it) needs numeric data, anything else is a
`ValueError`-kind failure. -/
def colToRat : Column → Except PyErr (List ℚ)
  | [] => .ok []
  | v :: t => do
    let x : ℚ ← (match v with
      | .num x => .ok x
      | .int n => .ok ((n : ℚ))
      | _ => .error .valueError)
    let r ← colToRat t
    pure (x :: r)

/-- `new_X.drop([c], axis=1)`: returns a copy without the named column,
`KeyError` when the label is absent. -/
def dfDropCol (df : DataFrame) (c : String) : Except PyErr DataFrame :=
  match dictGet df c with
  | none => .error .keyError
  | some _ => .ok (df.filter (fun p => decide (p.1 ≠ c)))

/-- `new_X.astype({c : str})`: returns a copy with the named column cast to
its string representation, `KeyError` when the label is absent. -/
def astypeStr (df : DataFrame) (c : String) : Except PyErr DataFrame :=
  match dictGet df c with
  | none => .error .keyError
  | some col => .ok (dictSet df c (col.map (fun v => .str (pyStr v))))

/-- One iteration of the `for column_name in column_list` loop of
`discretizer`, in state-passing style: `Xst` is the current state of the
input frame `X` (read, never written), `newX` the frame under
construction.  Reading `X[column_name]` from a missing column is a
`KeyError`.  Mirrors, in order: the `pd.qcut(X[column_name].rank(
method="first"), ...)` assignment to `new_X.loc[:, new_clm_name]`, the
conditional `drop` of the source column, and the `astype(str)` cast of the
new column.  (The `self.discretized_features.append` bookkeeping touches
facade state only and plays no part in any claim.) -/
def discLoop (qv : QSpec) (ql : Option (List ℤ)) (prec : ℕ) (dropF : Bool) :
    DataFrame → DataFrame → List String → Except PyErr DataFrame × DataFrame
  | Xst, newX, [] => (.ok newX, Xst)
  | Xst, newX, c :: rest =>
    match dictGet Xst c with
    | none => (.error .keyError, Xst)
    | some col =>
      match colToRat col with
      | .error e => (.error e, Xst)
      | .ok colQ =>
        match pdQcut (rankFirst colQ) qv ql prec .drop with
        | .error e => (.error e, Xst)
        | .ok binned =>
          let newX1 := dictSet newX (c ++ "_q_label") binned
          match (if dropF then dfDropCol newX1 c else .ok newX1) with
          | .error e => (.error e, Xst)
          | .ok newX2 =>
            match astypeStr newX2 (c ++ "_q_label") with
            | .error e => (.error e, Xst)
            | .ok newX3 => discLoop qv ql prec dropF Xst newX3 rest

/-- `BRLC.discretizer(X, column_list, no_of_quantiles, labels_for_bin,
precision)` in state-passing style: the second component is the final state
of the caller-supplied frame `X`.  A non-frame argument is a `TypeError`
(`invalidArgument`); `no_of_quantiles=None` defaults to quartile cut points
`[0, .25, .5, .75, 1.]`; the labels `[1, 2, 3, 4]` are substituted exactly
when `labels_for_bin` is the string `"default"`, otherwise the argument is
forwarded to `qcut` unchanged (so omitting it forwards `None`); the loop
body starts from `new_X = X.copy()` and always calls `qcut` with
`duplicates="drop"` on the rank-transformed column. -/
def discretizerST (X : PdInput) (column_list : List String) (no_of_quantiles : Option QSpec)
    (labels_for_bin : LabelsArg) (precision : ℕ) (dropF : Bool) :
    Except PyErr DataFrame × PdInput :=
  match X with
  | .nonFrame => (.error .invalidArgument, X)
  | .frame df =>
    let q_value : QSpec := match no_of_quantiles with
      | none => .cuts [0, 1/4, 1/2, 3/4, 1]
      | some s => s
    let q_labels : Option (List ℤ) := match labels_for_bin with
      | .defaultStr => some [1, 2, 3, 4]
      | .noneArg => none
      | .labels ls => some ls
    let r := discLoop q_value q_labels precision dropF df df column_list
    (r.1, .frame r.2)

/-- `BRLC.discretizer`, result only. -/
def discretizer (X : PdInput) (column_list : List String) (no_of_quantiles : Option QSpec)
    (labels_for_bin : LabelsArg) (precision : ℕ) (dropF : Bool) : Except PyErr DataFrame :=
  (discretizerST X column_list no_of_quantiles labels_for_bin precision dropF).1

/-- The `column_list` argument of `_filter_continuous_features`: omitted
(the default `None`), a list/tuple of column names, or any object that is
not a `collections.Sequence` at all. -/
inductive ColListArg where
  | noneArg
  | seq (l : List String)
  | nonSeq
deriving DecidableEq

/-- `isinstance(column_list, collections.Sequence)` — `None` is *not* a
`Sequence`. -/
def isSequence : ColListArg → Bool
  | .seq _ => true
  | _ => false

/-- `isinstance(X[c].iloc[0], numbers.Number)` as an `Except`: a missing
column is a `KeyError`, an empty column an `IndexError` from `iloc[0]`;
floats and ints are `numbers.Number`, strings and intervals are not. -/
def firstIsNumber (X : DataFrame) (c : String) : Except PyErr Bool :=
  match dictGet X c with
  | none => .error .keyError
  | some [] => .error .indexError
  | some (v :: _) =>
    .ok (match v with
      | .num _ => true
      | .int _ => true
      | _ => false)

/-- `tuple(filter(lambda c: isinstance(X[c].iloc[0], numbers.Number), c_l))`
— `tuple(...)` forces the lazy filter left to right, so the first column
whose inspection raises aborts the whole call. -/
def filterNumericCols (X : DataFrame) : List String → Except PyErr (List String)
  | [] => .ok []
  | c :: t => do
    let b ← firstIsNumber X c
    let r ← filterNumericCols X t
    pure (if b then c :: r else r)

/-- `BRLC._filter_continuous_features(X, column_list)`.  The guard
`isinstance(column_list, collections.Sequence)` raises `TypeError`
(`invalidArgument`) for every non-sequence argument — *including* the
default `None`, which makes the `c_l = X.columns if column_list is None
else column_list` branch on the next source line unreachable for `None`;
the branch is kept here as in the source. -/
def filter_continuous_features (X : DataFrame) (column_list : ColListArg) :
    Except PyErr (List String) :=
  if ¬ isSequence column_list then .error .invalidArgument
  else
    let c_l : List String := match column_list with
      | .noneArg => X.map Prod.fst
      | .seq l => l
      | .nonSeq => []
    filterNumericCols X c_l

/-- `set_params(params)`: `list(params.keys())[0]` on an empty dict raises
`IndexError`; otherwise exactly the binding of the first key of `params`
(dicts iterate in insertion order, so `list(params.values())[0]` is its
value) is written into `self.model_params` and every further pair of
`params` is ignored.  Hyper-parameter values are modelled as rationals. -/
def set_params (model_params : List (String × ℚ)) (params : List (String × ℚ)) :
    Except PyErr (List (String × ℚ)) :=
  match params with
  | [] => .error .indexError
  | (k, v) :: _ => .ok (dictSet model_params k v)

/-- The `self.model_params` dict assembled by `__init__` from the default
constructor arguments, in its insertion order. -/
def defaultModelParams : List (String × ℚ) :=
  [("iters", 30000), ("pos_sign", 1), ("neg_sign", 0), ("rule_minlen", 1),
   ("rule_maxlen", 8), ("minsupport_pos", 1/10), ("minsupport_neg", 1/10),
   ("eta", 1), ("nchain", 50), ("lambda", 10), ("alpha", 1)]

/-- A factor-encoded frame: what
`self.__r_frame(self.__s_apply(data, self.__as_factor))` hands to the R
side — every column converted to the factor of its values' string
representations. -/
abbrev FactorFrame := List (String × List String)

/-- `lapply(data, as.factor)` wrapped back into `data.frame`. -/
def toFactorFrame (df : DataFrame) : FactorFrame :=
  df.map (fun p => (p.1, p.2.map pyStr))

/-- An opaque handle to a fitted SBRL model living on the R side. -/
structure SbrlModel where
  id : ℕ
deriving DecidableEq

/-- The call `self.__r_sbrl.predict_sbrl(self.__model, data_as_r_frame)`
that `predict_proba` performs, recorded as the arguments handed to the
opaque backend; `model = none` is Python `None` (no fit or load yet). -/
structure SbrlPredictCall where
  model : Option SbrlModel
  data : FactorFrame
deriving DecidableEq

/-- `BRLC.predict_proba(X)` up to the opaque backend invocation: a
non-frame argument is a `DataSetError` (`invalidArgument`); otherwise the
frame is factor-converted and the backend is invoked with whatever
`self.__model` currently holds — the source performs no fitted-state check
whatsoever.  The subsequent `ri2py_dataframe(results).T` conversion of the
opaque backend result is not modelled. -/
def predict_proba (model : Option SbrlModel) (X : PdInput) : Except PyErr SbrlPredictCall :=
  match X with
  | .nonFrame => .error .invalidArgument
  | .frame df => .ok ⟨model, toFactorFrame df⟩

/-- The R frame handed to `self.__r_sbrl.sbrl(...)` by `fit` (the backend
call itself, an MCMC search in the external sbrl package, is opaque; its
hyper-parameters are forwarded verbatim from `self.model_params`). -/
abbrev SbrlFitData := FactorFrame

/-- Everything `fit` does after its first statement (the binary-label
check): the `isinstance(X, pd.DataFrame)` check (`DataSetError`,
`invalidArgument`), the `undiscretize_feature_list` filter over
`X.columns`, then — only when `self.__discretize` is `True` — the selection
of numeric columns and the discretization (argument evaluation order of
`self.discretizer(X, self._filter_continuous_features(...), ...)`), the
`data.loc[:, "label"] = y_true` column append, and the factor conversion
handed to the backend.  (`self.feature_names = data.columns` is facade
bookkeeping with no bearing on any claim.) -/
def fit_rest (X : PdInput) (y_true : List ℤ) (n_quantiles : Option QSpec)
    (bin_labels : LabelsArg) (undiscretize_feature_list : Option (List String))
    (precision : ℕ) (discretize dropF : Bool) : Except PyErr SbrlFitData :=
  match X with
  | .nonFrame => .error .invalidArgument
  | .frame df => do
    let for_discretization_clmns : List String :=
      match undiscretize_feature_list with
      | some ul => (df.map Prod.fst).filter (fun c => decide (c ∉ ul))
      | none => df.map Prod.fst
    let data ←
      if discretize then do
        let cont ← filter_continuous_features df (.seq for_discretization_clmns)
        discretizer (.frame df) cont n_quantiles bin_labels precision dropF
      else
        pure df
    let data2 := dictSet data "label" (y_true.map PyVal.int)
    pure (toFactorFrame data2)

/-- `BRLC.fit(X, y_true, n_quantiles, bin_labels, undiscretize_feature_list,
precision)`: the very first statement checks
`len(np.unique(y_true)) != 2` and raises
`Exception("Supports only binary classification right now")`
(`unsupportedOperation`) — before the frame type check, before any
preprocessing and before the backend call; with exactly two distinct
labels, execution proceeds with the rest of the method. -/
def fit (X : PdInput) (y_true : List ℤ) (n_quantiles : Option QSpec)
    (bin_labels : LabelsArg) (undiscretize_feature_list : Option (List String))
    (precision : ℕ) (discretize dropF : Bool) : Except PyErr SbrlFitData :=
  if y_true.dedup.length ≠ 2 then .error .unsupportedOperation
  else fit_rest X y_true n_quantiles bin_labels undiscretize_feature_list precision
    discretize dropF

/-- A key of a pandas `Series` index after label enlargement: the original
integer row/column labels, or the string key `"label"` that `predict`
adds. -/
abbrev SKey := ℤ ⊕ String

/-- A value held in the `y_prob` series of `predict`: a probability, or the
whole `numpy` label array that the enlargement
`y_prob["label"] = np.where(...)` stores under the new key. -/
inductive SVal where
  | q (x : ℚ)
  | arr (ls : List ℤ)
deriving DecidableEq

/-- A pandas `Series` with heterogeneous index. -/
abbrev Series := List (SKey × SVal)

/-- The probability table produced by `predict_proba` (or precomputed by
the caller): integer column labels (the class signs), each column a series
of per-row probabilities. -/
abbrev ProbTable := List (ℤ × Series)

/-- `probability_df.loc[:, pos_label]`: select one column as a `Series`
(`KeyError` when the label is missing).  Series enlargement — assignment to
a key absent from the index — rebuilds the storage of the selected series
itself and never writes through to the parent frame, so the selection is
modelled as a value read. -/
def probLoc (df : ProbTable) (pos_label : ℤ) : Except PyErr Series :=
  match dictGet df pos_label with
  | none => .error .keyError
  | some s => .ok s

/-- One entry of `np.where(values > threshold, 1, 0)`: the elementwise
strict comparison of `y_prob.values` with the threshold. -/
def labelOfSval (v : SVal) (threshold : ℚ) : ℤ :=
  match v with
  | .q x => if threshold < x then 1 else 0
  | .arr _ => 0

/-- `np.where(y_prob.values > threshold, 1, 0)` over a whole series. -/
def npWhereGt (s : Series) (threshold : ℚ) : List ℤ :=
  s.map (fun p => labelOfSval p.2 threshold)

/-- `BRLC.predict(X=None, prob_score, threshold, pos_label)` on the
precomputed-probability path (`X is None`, so
`probability_df = prob_score`), in state-passing style: the second
component is the final state of the caller-supplied table.  Mirrors, in
order: the column selection `y_prob = probability_df.loc[:, pos_label]`,
the enlargement `y_prob["label"] = np.where(y_prob.values > threshold, 1,
0)` (the comparison reads `y_prob.values` before the new key exists), and
the returned pair `(y_prob, y_prob["label"])`. -/
def predict (prob_score : ProbTable) (threshold : ℚ) (pos_label : ℤ) :
    Except PyErr (Series × SVal) × ProbTable :=
  (match probLoc prob_score pos_label with
   | .error e => .error e
   | .ok y_prob =>
     let lbls := npWhereGt y_prob threshold
     let y_prob2 := dictSet y_prob (Sum.inr "label") (.arr lbls)
     match dictGet y_prob2 (Sum.inr "label") with
     | none => .error .keyError
     | some lv => .ok (y_prob2, lv),
   prob_score)

/-- Clamp of one Python slice endpoint to `[0, n]` for a list of length
`n`: negative endpoints count from the end. -/
def pyBound (n : ℕ) (i : ℤ) : ℕ :=
  if i < 0 then ((n : ℤ) + i).toNat else min i.toNat n

/-- Python list slicing `l[a:b]` with step 1. -/
def pySlice {α : Type} (l : List α) (a b : ℤ) : List α :=
  (l.take (pyBound l.length b)).drop (pyBound l.length a)

/-- Python list indexing `l[i]` (negative indices count from the end,
out-of-range is an `IndexError`). -/
def pyIndex {α : Type} (l : List α) (i : ℤ) : Except PyErr α :=
  let j : ℤ := if i < 0 then (l.length : ℤ) + i else i
  if h : 0 ≤ j ∧ j.toNat < l.length then .ok (l.get ⟨j.toNat, h.2⟩)
  else .error .indexError

/-- Python `s.split(sep)` over the character list of a string: every
occurrence of the separator splits, empty pieces are kept
(`"a::b".split(":") == ["a", "", "b"]`, `"".split(":") == [""]`). -/
def pySplit (sep : Char) : List Char → List (List Char)
  | [] => [[]]
  | c :: rest =>
    match pySplit sep rest with
    | [] => [[]]
    | h :: t => if c = sep then [] :: h :: t else (c :: h) :: t

/-- The decimal value of a digit string (`none` when empty or when any
character is not a digit). -/
def pyIntDigits : List Char → Option ℕ
  | [] => none
  | cs => cs.foldlM
      (fun acc c =>
        if '0' ≤ c ∧ c ≤ '9' then some (acc * 10 + (c.toNat - Char.toNat '0')) else none) 0

/-- Python `int(s)`: an optional sign followed by decimal digits; anything
else raises `ValueError` (`none` here).  The whitespace stripping and
underscore separators `int` also accepts play no part in any claim and are
not modelled. -/
def pyInt? : List Char → Option ℤ
  | '-' :: rest => (pyIntDigits rest).map (fun n => -(n : ℤ))
  | '+' :: rest => (pyIntDigits rest).map (fun n => ((n : ℤ)))
  | s => (pyIntDigits s).map (fun n => ((n : ℤ)))

/-- Result of `access_learned_rules`: the full or sliced rule-name list, or
one single rule name. -/
abbrev RulesOut := List String ⊕ String

/-- `BRLC.access_learned_rules(rule_indexes)` over the `rulenames` entry of
the fitted handle (the surrounding
`dict(zip(self.__model.names, ...))` marshalling of the opaque handle is
represented by the rule-name list itself).  The literal `"all"` returns the
whole list; otherwise every colon-separated piece is parsed with `int`
(`ValueError` on failure); a string containing `:` is answered with the
Python slice `rulenames[start - 1 : end - 1]`, a bare index with
`rulenames[idx - 1]`.  (The `isinstance(rule_indexes, str)` guard is
enforced by the argument type.) -/
def access_learned_rules (rulenames : List String) (rule_indexes : String) :
    Except PyErr RulesOut :=
  if rule_indexes = "all" then .ok (.inl rulenames)
  else
    match (pySplit ':' rule_indexes.data).mapM pyInt? with
    | none => .error .valueError
    | some idxs =>
      if rule_indexes.data.contains ':' then
        match idxs with
        | s :: e :: _ => .ok (.inl (pySlice rulenames (s - 1) (e - 1)))
        | _ => .error .indexError
      else
        match idxs with
        | s :: _ => (pyIndex rulenames (s - 1)).map .inr
        | _ => .error .indexError

/-! ### Helper lemmas -/

theorem dictGet_dictSet_self {κ V : Type} [DecidableEq κ] (d : List (κ × V)) (k : κ) (v : V) :
    dictGet (dictSet d k v) k = some v := by
  induction d with
  | nil => simp [dictSet, dictGet]
  | cons h t ih =>
    obtain ⟨k1, v1⟩ := h
    by_cases hk : k1 = k
    · simp [dictSet, dictGet, hk]
    · simp [dictSet, dictGet, hk, ih]

theorem dictGet_dictSet_ne {κ V : Type} [DecidableEq κ] (d : List (κ × V)) (k k2 : κ) (v : V)
    (hne : k2 ≠ k) : dictGet (dictSet d k v) k2 = dictGet d k2 := by
  have hkk : k ≠ k2 := hne.symm
  induction d with
  | nil => simp [dictSet, dictGet, hkk]
  | cons h t ih =>
    obtain ⟨k1, v1⟩ := h
    by_cases hk : k1 = k
    · subst hk
      simp [dictSet, dictGet, hkk]
    · simp [dictSet, dictGet, hk, ih]

theorem take_min_length {α : Type} (l : List α) (b : ℕ) :
    l.take (min b l.length) = l.take b := by
  rcases le_total b l.length with h | h
  · rw [min_eq_left h]
  · rw [min_eq_right h, List.take_length, List.take_of_length_le h]

theorem drop_min_of_length_le {α : Type} (l : List α) (a n : ℕ) (hl : l.length ≤ n) :
    l.drop (min a n) = l.drop a := by
  rcases le_total a n with h | h
  · rw [min_eq_left h]
  · rw [min_eq_right h, List.drop_eq_nil_of_le hl,
      List.drop_eq_nil_of_le (le_trans hl h)]

/-- For nonnegative slice endpoints, Python slicing is the mathematical
half-open slice: elements at 0-based positions `[a, b)`. -/
theorem pySlice_nonneg {α : Type} (l : List α) (a b : ℤ) (ha : 0 ≤ a) (hb : 0 ≤ b) :
    pySlice l a b = (l.take b.toNat).drop a.toNat := by
  unfold pySlice pyBound
  rw [if_neg (by omega : ¬ b < 0), if_neg (by omega : ¬ a < 0), take_min_length]
  exact drop_min_of_length_le (l.take b.toNat) a.toNat l.length
    (by rw [List.length_take]; exact min_le_right _ _)

theorem discLoop_state (qv : QSpec) (ql : Option (List ℤ)) (prec : ℕ) (dropF : Bool)
    (cs : List String) : ∀ Xst newX, (discLoop qv ql prec dropF Xst newX cs).2 = Xst := by
  induction cs with
  | nil => intro Xst newX; rfl
  | cons c rest ih =>
    intro Xst newX
    unfold discLoop
    split
    · rfl
    · split
      · rfl
      · split
        · rfl
        · dsimp only
          split
          · rfl
          · split
            · rfl
            · exact ih _ _

theorem colToRat_ne_nonUnique (col : Column) :
    colToRat col ≠ .error .nonUniqueEdges := by
  induction col with
  | nil => simp [colToRat]
  | cons v t ih =>
    rcases v with x | n | s | ⟨lo, hi⟩ <;>
      simp only [colToRat, bind, Except.bind]
    · rcases ht : colToRat t with e2 | l
      · dsimp only
        simp only [ne_eq, Except.error.injEq]
        intro h2
        exact ih (h2 ▸ ht)
      · dsimp only
        simp [pure, Except.pure]
    · rcases ht : colToRat t with e2 | l
      · dsimp only
        simp only [ne_eq, Except.error.injEq]
        intro h2
        exact ih (h2 ▸ ht)
      · dsimp only
        simp [pure, Except.pure]
    · simp
    · simp

theorem pdQcut_drop_ne_nonUnique (col : List ℚ) (q : QSpec) (labels : Option (List ℤ))
    (prec : ℕ) : pdQcut col q labels prec .drop ≠ .error .nonUniqueEdges := by
  unfold pdQcut
  dsimp only
  split
  · rename_i hcond
    exact absurd hcond.2 (by simp)
  · split
    · split <;> simp
    · simp

theorem dfDropCol_ne_nonUnique (df : DataFrame) (c : String) :
    dfDropCol df c ≠ .error .nonUniqueEdges := by
  unfold dfDropCol
  split <;> simp

theorem astypeStr_ne_nonUnique (df : DataFrame) (c : String) :
    astypeStr df c ≠ .error .nonUniqueEdges := by
  unfold astypeStr
  split <;> simp

theorem discLoop_ne_nonUnique (qv : QSpec) (ql : Option (List ℤ)) (prec : ℕ) (dropF : Bool)
    (cs : List String) : ∀ Xst newX,
    (discLoop qv ql prec dropF Xst newX cs).1 ≠ .error .nonUniqueEdges := by
  induction cs with
  | nil => intro Xst newX h; cases h
  | cons c rest ih =>
    intro Xst newX
    unfold discLoop
    split
    · simp
    · split
      · rename_i e heq
        simp only [ne_eq, Except.error.injEq]
        intro h2
        exact colToRat_ne_nonUnique _ (h2 ▸ heq)
      · split
        · rename_i e heq
          simp only [ne_eq, Except.error.injEq]
          intro h2
          exact pdQcut_drop_ne_nonUnique _ _ _ _ (h2 ▸ heq)
        · dsimp only
          split
          · rename_i e heq
            simp only [ne_eq, Except.error.injEq]
            intro h2
            subst h2
            rcases dropF with _ | _
            · simp at heq
            · simp only [if_pos rfl] at heq
              exact dfDropCol_ne_nonUnique _ _ heq
          · split
            · rename_i e heq
              simp only [ne_eq, Except.error.injEq]
              intro h2
              exact astypeStr_ne_nonUnique _ _ (h2 ▸ heq)
            · exact ih _ _

theorem countP_lt_countP {α : Type} {p q : α → Bool} (l : List α)
    (hpq : ∀ a ∈ l, p a = true → q a = true) (a : α) (ha : a ∈ l)
    (hpa : p a = false) (hqa : q a = true) : l.countP p < l.countP q := by
  induction l with
  | nil => cases ha
  | cons b t ih =>
    rcases List.mem_cons.mp ha with rfl | hat
    · have hmono : t.countP p ≤ t.countP q :=
        List.countP_mono_left (fun x hx hpx => hpq x (List.mem_cons_of_mem _ hx) hpx)
      simp only [List.countP_cons, hpa, hqa]
      norm_num
      omega
    · have hih := ih (fun x hx hpx => hpq x (List.mem_cons_of_mem _ hx) hpx) hat
      have hb : (if p b then 1 else 0) ≤ (if q b then 1 else 0) := by
        by_cases hpb : p b = true
        · simp [hpb, hpq b (List.mem_cons_self _ _) hpb]
        · simp only [Bool.not_eq_true] at hpb
          simp [hpb]
      simp only [List.countP_cons]
      omega

theorem keyLt_trans (col : List ℚ) (a b c : ℕ) (h1 : keyLt col a b) (h2 : keyLt col b c) :
    keyLt col a c := by
  rcases h1 with h1 | ⟨h1e, h1i⟩ <;> rcases h2 with h2 | ⟨h2e, h2i⟩
  · exact Or.inl (lt_trans h1 h2)
  · exact Or.inl (h2e ▸ h1)
  · exact Or.inl (h1e ▸ h2)
  · exact Or.inr ⟨h1e.trans h2e, lt_trans h1i h2i⟩

theorem keyLt_irrefl (col : List ℚ) (a : ℕ) : ¬ keyLt col a a := by
  rintro (h | ⟨_, h⟩) <;> exact lt_irrefl _ h

theorem keyLt_total_of_ne (col : List ℚ) (a b : ℕ) (hne : a ≠ b) :
    keyLt col a b ∨ keyLt col b a := by
  rcases lt_trichotomy (col.getD a 0) (col.getD b 0) with h | h | h
  · exact Or.inl (Or.inl h)
  · rcases lt_or_gt_of_ne hne with hi | hi
    · exact Or.inl (Or.inr ⟨h, hi⟩)
    · exact Or.inr (Or.inr ⟨h.symm, hi⟩)
  · exact Or.inr (Or.inl h)

/-- The count entering the rank of entry `i`. -/
def rankCount (col : List ℚ) (i : ℕ) : ℕ :=
  (List.range col.length).countP (fun j => decide (keyLt col j i))

theorem rankFirst_eq_map (col : List ℚ) :
    rankFirst col = (List.range col.length).map (fun i => ((rankCount col i + 1 : ℕ) : ℚ)) :=
  rfl

theorem rankCount_strict_mono (col : List ℚ) (i j : ℕ) (hi : i < col.length)
    (hij : keyLt col i j) : rankCount col i < rankCount col j := by
  refine countP_lt_countP (List.range col.length) ?_ i (List.mem_range.mpr hi) ?_ ?_
  · intro a _ hpa
    exact decide_eq_true (keyLt_trans col a i j (of_decide_eq_true hpa) hij)
  · exact decide_eq_false (keyLt_irrefl col i)
  · exact decide_eq_true hij

theorem length_rankFirst (col : List ℚ) : (rankFirst col).length = col.length := by
  simp [rankFirst]

theorem rankFirst_getD (col : List ℚ) (i : ℕ) (hi : i < col.length) :
    (rankFirst col).getD i 0 = ((rankCount col i + 1 : ℕ) : ℚ) := by
  rw [rankFirst_eq_map]
  simp [List.getD_eq_getElem?_getD, List.getElem?_map, List.getElem?_range hi]

theorem rankFirst_strict_mono (col : List ℚ) (i j : ℕ) (hi : i < col.length)
    (hj : j < col.length) (hij : keyLt col i j) :
    (rankFirst col).getD i 0 < (rankFirst col).getD j 0 := by
  rw [rankFirst_getD col i hi, rankFirst_getD col j hj]
  have := rankCount_strict_mono col i j hi hij
  exact_mod_cast by omega

theorem rankFirst_nodup (col : List ℚ) : (rankFirst col).Nodup := by
  rw [rankFirst_eq_map]
  refine List.Nodup.map_on ?_ (List.nodup_range _)
  intro i hi j hj hfe
  by_contra hne
  have hi' := List.mem_range.mp hi
  have hj' := List.mem_range.mp hj
  have hcount : rankCount col i = rankCount col j := by
    have h2 : (rankCount col i + 1 : ℕ) = (rankCount col j + 1 : ℕ) := Nat.cast_injective hfe
    omega
  rcases keyLt_total_of_ne col i j hne with h | h
  · exact absurd hcount (Nat.ne_of_lt (rankCount_strict_mono col i j hi' h))
  · exact absurd hcount.symm (Nat.ne_of_lt (rankCount_strict_mono col j i hj' h))

theorem rankCount_lt_length (col : List ℚ) (i : ℕ) (hi : i < col.length) :
    rankCount col i < col.length := by
  have h := countP_lt_countP (p := fun j => decide (keyLt col j i)) (q := fun _ => true)
    (List.range col.length) (fun a _ _ => rfl) i (List.mem_range.mpr hi)
    (decide_eq_false (keyLt_irrefl col i)) rfl
  rwa [List.countP_true, List.length_range] at h

/-- The list `[1, 2, ..., n]` as rationals: the sorted value set of a rank
transform of a length-`n` column. -/
def oneToN (n : ℕ) : List ℚ :=
  (List.range n).map (fun i => ((i + 1 : ℕ) : ℚ))

theorem length_oneToN (n : ℕ) : (oneToN n).length = n := by
  simp [oneToN]

theorem oneToN_getD (n i : ℕ) (hi : i < n) : (oneToN n).getD i 0 = ((i + 1 : ℕ) : ℚ) := by
  simp [oneToN, List.getD_eq_getElem?_getD, List.getElem?_map, List.getElem?_range hi]

theorem oneToN_sorted (n : ℕ) : List.Sorted (· ≤ ·) (oneToN n) := by
  refine List.Pairwise.map _ ?_ (List.pairwise_lt_range n)
  intro a b hab
  exact_mod_cast by omega

theorem rankFirst_subset_oneToN (col : List ℚ) :
    rankFirst col ⊆ oneToN col.length := by
  intro v hv
  rw [rankFirst_eq_map] at hv
  rcases List.mem_map.mp hv with ⟨i, hi, rfl⟩
  have hi' := List.mem_range.mp hi
  have hc := rankCount_lt_length col i hi'
  exact List.mem_map.mpr ⟨rankCount col i, List.mem_range.mpr hc, rfl⟩

theorem rankFirst_perm_oneToN (col : List ℚ) :
    (rankFirst col).Perm (oneToN col.length) := by
  refine List.Subperm.perm_of_length_le
    (List.subperm_of_subset (rankFirst_nodup col) (rankFirst_subset_oneToN col)) ?_
  rw [length_oneToN, length_rankFirst]

theorem sortRat_rankFirst (col : List ℚ) :
    sortRat (rankFirst col) = oneToN col.length := by
  refine List.eq_of_perm_of_sorted ?_ ?_ (oneToN_sorted col.length)
  · exact (List.perm_insertionSort _ _).trans (rankFirst_perm_oneToN col)
  · exact List.sorted_insertionSort _ _

/-- Linear interpolation over the sorted rank list `[1, ..., n]` evaluates
to `q * (n - 1) + 1` for every quantile `q` in `[0, 1)`. -/
theorem quantileSorted_oneToN_of_lt (n : ℕ) (q : ℚ) (hn : 2 ≤ n) (hq0 : 0 ≤ q)
    (hq1 : q < 1) : quantileSorted (oneToN n) q = q * ((n : ℚ) - 1) + 1 := by
  have hm1 : (1 : ℚ) ≤ (n : ℚ) - 1 := by
    have h2 : (2 : ℚ) ≤ (n : ℚ) := by exact_mod_cast hn
    linarith
  unfold quantileSorted
  simp only [length_oneToN]
  set pos : ℚ := q * ((n : ℚ) - 1) with hpos
  have hpos0 : 0 ≤ pos := mul_nonneg hq0 (by linarith)
  have hposlt : pos < (n : ℚ) - 1 := by
    calc pos < 1 * ((n : ℚ) - 1) := mul_lt_mul_of_pos_right hq1 (by linarith)
    _ = (n : ℚ) - 1 := one_mul _
  have hfl0 : 0 ≤ ⌊pos⌋ := Int.floor_nonneg.mpr hpos0
  have hfli : ((⌊pos⌋.toNat : ℤ) : ℚ) = (⌊pos⌋ : ℚ) := by
    rw [Int.toNat_of_nonneg hfl0]
  have hflt : ⌊pos⌋ < (n : ℤ) - 1 := by
    rw [Int.floor_lt]
    push_cast
    exact hposlt
  have hilt : ⌊pos⌋.toNat + 1 < n := by omega
  rw [if_pos hilt, oneToN_getD n _ (by omega), oneToN_getD n _ (by omega)]
  have hfloor_le : (⌊pos⌋ : ℚ) ≤ pos := Int.floor_le pos
  push_cast
  push_cast at hfli
  rw [hfli]
  ring

/-- Linear interpolation over the sorted rank list `[1, ..., n]` evaluates
to `n` at the top quantile `q = 1`. -/
theorem quantileSorted_oneToN_one (n : ℕ) (hn : 1 ≤ n) :
    quantileSorted (oneToN n) 1 = (n : ℚ) := by
  unfold quantileSorted
  simp only [length_oneToN, one_mul]
  have hfl : ⌊(n : ℚ) - 1⌋ = (n : ℤ) - 1 := by
    rw [show ((n : ℚ) - 1) = (((n : ℤ) - 1 : ℤ) : ℚ) by push_cast; ring, Int.floor_intCast]
  rw [hfl]
  have htn : ((n : ℤ) - 1).toNat = n - 1 := by omega
  rw [htn, if_neg (by omega), oneToN_getD n _ (by omega)]
  push_cast [Nat.sub_add_cancel hn]
  ring

theorem pdQuantile_rankFirst_of_lt (col : List ℚ) (q : ℚ) (hn : 2 ≤ col.length)
    (hq0 : 0 ≤ q) (hq1 : q < 1) :
    pdQuantile (rankFirst col) q = q * ((col.length : ℚ) - 1) + 1 := by
  simp only [pdQuantile, sortRat_rankFirst]
  exact quantileSorted_oneToN_of_lt col.length q hn hq0 hq1

theorem pdQuantile_rankFirst_one (col : List ℚ) (hn : 1 ≤ col.length) :
    pdQuantile (rankFirst col) 1 = (col.length : ℚ) := by
  simp only [pdQuantile, sortRat_rankFirst]
  exact quantileSorted_oneToN_one col.length hn

/-- On a rank-transformed column of length at least 2, the default quartile
cut points give five pairwise distinct quantile edges, so `qcut` with the
four default labels succeeds. -/
theorem pdQcut_rankFirst_quartiles_ok (col : List ℚ) (prec : ℕ) (hn : 2 ≤ col.length) :
    (pdQcut (rankFirst col) (.cuts [0, 1/4, 1/2, 3/4, 1]) (some [1, 2, 3, 4]) prec
      .drop).isOk = true := by
  have hm1 : (1 : ℚ) ≤ (col.length : ℚ) - 1 := by
    have h2 : (2 : ℚ) ≤ (col.length : ℚ) := by exact_mod_cast hn
    linarith
  have he0 : pdQuantile (rankFirst col) 0 = 1 := by
    rw [pdQuantile_rankFirst_of_lt col 0 hn le_rfl (by norm_num)]
    ring
  have he1 : pdQuantile (rankFirst col) (1/4) = ((col.length : ℚ) - 1) / 4 + 1 := by
    rw [pdQuantile_rankFirst_of_lt col (1/4) hn (by norm_num) (by norm_num)]
    ring
  have he2 : pdQuantile (rankFirst col) (1/2) = ((col.length : ℚ) - 1) / 2 + 1 := by
    rw [pdQuantile_rankFirst_of_lt col (1/2) hn (by norm_num) (by norm_num)]
    ring
  have he3 : pdQuantile (rankFirst col) (3/4) = 3 * ((col.length : ℚ) - 1) / 4 + 1 := by
    rw [pdQuantile_rankFirst_of_lt col (3/4) hn (by norm_num) (by norm_num)]
    ring
  have he4 : pdQuantile (rankFirst col) 1 = (col.length : ℚ) := by
    rw [pdQuantile_rankFirst_one col (by omega)]
  have hnodup : ([1, ((col.length : ℚ) - 1) / 4 + 1, ((col.length : ℚ) - 1) / 2 + 1,
      3 * ((col.length : ℚ) - 1) / 4 + 1, (col.length : ℚ)] : List ℚ).Nodup := by
    refine List.Pairwise.cons ?_ (List.Pairwise.cons ?_ (List.Pairwise.cons ?_
      (List.Pairwise.cons ?_ (List.Pairwise.cons ?_ List.Pairwise.nil)))) <;>
      intro b hb <;> fin_cases hb <;> intro hcon <;> linarith
  unfold pdQcut
  dsimp only [qspecCuts]
  rw [List.map_cons, List.map_cons, List.map_cons, List.map_cons, List.map_cons,
    List.map_nil, he0, he1, he2, he3, he4, List.dedup_eq_self.mpr hnodup]
  rw [if_neg (by simp)]
  rw [if_neg (by norm_num)]
  rfl

theorem discretizer_ne_nonUnique (X : PdInput) (cols : List String) (nq : Option QSpec)
    (la : LabelsArg) (prec : ℕ) (dropF : Bool) :
    discretizer X cols nq la prec dropF ≠ .error .nonUniqueEdges := by
  unfold discretizer discretizerST
  cases X with
  | nonFrame => simp
  | frame df =>
    dsimp only
    exact discLoop_ne_nonUnique _ _ _ _ _ _ _

/-! ### Claims -/

/-- C1: for every fitted model with rule names `rulenames` and every range
request "start:end" whose two pieces parse as the integers `s ≥ 1` and
`e ≥ 1` (the 1-based presentation indices of the spec),
`access_learned_rules` answers with exactly the rule names at 0-based
positions `s - 1` through `e - 2`: the half-open slice `[s - 1, e - 1)`. -/
theorem claim_C1_range_slice (rulenames : List String) (str : String) (s e : ℤ)
    (hall : str ≠ "all")
    (hsplit : (pySplit ':' str.data).mapM pyInt? = some [s, e])
    (hc : str.data.contains ':' = true) (hs : 1 ≤ s) (he : 1 ≤ e) :
    access_learned_rules rulenames str =
      .ok (.inl ((rulenames.take (e - 1).toNat).drop (s - 1).toNat)) := by
  unfold access_learned_rules
  rw [if_neg hall, hsplit]
  dsimp only
  rw [if_pos hc, pySlice_nonneg rulenames (s - 1) (e - 1) (by omega) (by omega)]

/-- C1 witness: on the five-rule list and the request "2:4" the result is
the two rule names at 0-based positions 1 and 2 only. -/
theorem claim_C1_range_slice_witness :
    ((pySplit ':' "2:4".data).mapM pyInt? = some [2, 4] ∧ (1 : ℤ) ≤ 2 ∧ (1 : ℤ) ≤ 4) ∧
    access_learned_rules ["r1", "r2", "r3", "r4", "r5"] "2:4" = .ok (.inl ["r2", "r3"]) := by
  refine ⟨⟨by decide, by norm_num, by norm_num⟩, ?_⟩
  exact (claim_C1_range_slice ["r1", "r2", "r3", "r4", "r5"] "2:4" 2 4 (by decide) (by decide)
    (by decide) (by norm_num) (by norm_num)).trans (by decide)

/-- C2: `predict` on a probability table labels each entry of the
positive-class column with `1` exactly when its probability is strictly
greater than the threshold and with `0` otherwise; in particular an entry
exactly at the threshold gets the negative label `0`. -/
theorem claim_C2_threshold_strict (df : ProbTable) (t : ℚ) (pos : ℤ) (col : Series)
    (h : probLoc df pos = .ok col) :
    (predict df t pos).1 =
      .ok (dictSet col (Sum.inr "label") (.arr (npWhereGt col t)), .arr (npWhereGt col t)) ∧
    (∀ p ∈ col, ∀ x : ℚ, p.2 = .q x →
      labelOfSval p.2 t = if t < x then 1 else 0) ∧
    labelOfSval (.q t) t = 0 := by
  refine ⟨?_, ?_, ?_⟩
  · unfold predict
    rw [h]
    dsimp only
    rw [dictGet_dictSet_self]
  · intro p _ x hx
    rw [hx]
    rfl
  · simp [labelOfSval]

/-- C2 witness: with threshold 1/2 the row with probability exactly 1/2
gets label 0 and the row with probability 3/4 gets label 1. -/
theorem claim_C2_threshold_strict_witness :
    probLoc [((1 : ℤ), [(Sum.inl 0, SVal.q (1/2)), (Sum.inl 1, SVal.q (3/4))])] 1 =
      .ok [(Sum.inl 0, SVal.q (1/2)), (Sum.inl 1, SVal.q (3/4))] ∧
    (predict [((1 : ℤ), [(Sum.inl 0, SVal.q (1/2)), (Sum.inl 1, SVal.q (3/4))])] (1/2) 1).1 =
      .ok (dictSet [(Sum.inl 0, SVal.q (1/2)), (Sum.inl 1, SVal.q (3/4))] (Sum.inr "label")
            (.arr (npWhereGt [(Sum.inl 0, SVal.q (1/2)), (Sum.inl 1, SVal.q (3/4))] (1/2))),
          .arr (npWhereGt [(Sum.inl 0, SVal.q (1/2)), (Sum.inl 1, SVal.q (3/4))] (1/2))) ∧
    npWhereGt [(Sum.inl 0, SVal.q (1/2)), (Sum.inl 1, SVal.q (3/4))] (1/2) = [0, 1] := by
  refine ⟨rfl, ?_, by norm_num [npWhereGt, labelOfSval]⟩
  exact (claim_C2_threshold_strict
    [((1 : ℤ), [(Sum.inl 0, SVal.q (1/2)), (Sum.inl 1, SVal.q (3/4))])] (1/2) 1
    [(Sum.inl 0, SVal.q (1/2)), (Sum.inl 1, SVal.q (3/4))] rfl).1

/-- C3: `fit` raises the `UnsupportedOperation`-kind error whenever the
label vector has a number of distinct values other than 2, whatever every
other argument is (so before the type check, the preprocessing and the
backend call); with exactly two distinct labels the check passes and `fit`
proceeds with the rest of the method. -/
theorem claim_C3_binary_label_check (X : PdInput) (y : List ℤ) (nq : Option QSpec)
    (bl : LabelsArg) (ud : Option (List String)) (prec : ℕ) (disc dropF : Bool) :
    (y.dedup.length ≠ 2 →
      fit X y nq bl ud prec disc dropF = .error .unsupportedOperation) ∧
    (y.dedup.length = 2 →
      fit X y nq bl ud prec disc dropF = fit_rest X y nq bl ud prec disc dropF) := by
  constructor
  · intro h
    unfold fit
    rw [if_pos h]
  · intro h
    unfold fit
    rw [if_neg (by omega)]

/-- C3 witness: the constant label vector `[1, 1, 1, 1]` (one distinct
value) is rejected with the `UnsupportedOperation`-kind error even on a
non-frame `X`, and the binary vector `[0, 1]` passes the check. -/
theorem claim_C3_binary_label_check_witness :
    (([1, 1, 1, 1] : List ℤ).dedup.length ≠ 2 ∧
      fit .nonFrame [1, 1, 1, 1] none .defaultStr none 3 true false =
        .error .unsupportedOperation) ∧
    (([0, 1] : List ℤ).dedup.length = 2 ∧
      fit (.frame []) [0, 1] none .defaultStr none 3 true false =
        fit_rest (.frame []) [0, 1] none .defaultStr none 3 true false) :=
  ⟨⟨by decide, (claim_C3_binary_label_check _ _ _ _ _ _ _ _).1 (by decide)⟩,
   ⟨by decide, (claim_C3_binary_label_check _ _ _ _ _ _ _ _).2 (by decide)⟩⟩

/-- C4 counterexample: on an `Unfit` classifier (`model = none`) with a
perfectly ordinary frame, `predict_proba` does not raise any
`IllegalState`-kind error — it succeeds in reaching the backend call. -/
theorem claim_C4_counterexample :
    predict_proba none (.frame [("f", [.num 1])]) ≠ .error .illegalState ∧
    (predict_proba none (.frame [("f", [.num 1])])).isOk = true := by
  have h : predict_proba none (.frame [("f", [.num 1])]) =
      .ok ⟨none, toFactorFrame [("f", [.num 1])]⟩ := rfl
  rw [h]
  exact ⟨by simp, rfl⟩

/-- C4 amended: `predict_proba` performs no fitted-state check at all: on
an `Unfit` classifier it converts the frame and delegates to the backend
with the null (`None`) model handle; the only error it can raise itself is
the `InvalidArgument` frame type check. -/
theorem claim_C4_amended (df : DataFrame) :
    predict_proba none (.frame df) = .ok ⟨none, toFactorFrame df⟩ := rfl

/-- C5: evaluating `_filter_continuous_features` with the column-list
argument omitted (its default `None`): `None` fails the
`isinstance(column_list, collections.Sequence)` guard, so the call raises
the `InvalidArgument`-kind `TypeError` instead of returning the numeric
columns — the `c_l = X.columns if column_list is None else column_list`
branch written for exactly this case is unreachable. -/
theorem claim_C5_none_rejected (X : DataFrame) :
    filter_continuous_features X .noneArg = .error .invalidArgument := rfl

/-- C6 counterexample: a call to the discretizer with the `bin_labels`
argument omitted (`None`, the discretizer default — not the string
`"default"` that only `fit` passes).  The omission forwards `labels=None`
to `qcut`, so the resulting bins carry interval labels such as "(1, 2]";
none of the resulting labels is one of the stringified default bin labels
1, 2, 3, 4. -/
theorem claim_C6_counterexample :
    discretizer (.frame [("a", [.num 10, .num 20, .num 30, .num 40, .num 50])]) ["a"]
      none .noneArg 3 false =
      .ok [("a", [.num 10, .num 20, .num 30, .num 40, .num 50]),
           ("a_q_label", [.str "(1, 2]", .str "(1, 2]", .str "(2, 3]", .str "(3, 4]",
             .str "(4, 5]"])] ∧
    (∀ v ∈ ([.str "(1, 2]", .str "(1, 2]", .str "(2, 3]", .str "(3, 4]",
        .str "(4, 5]"] : Column),
      v ∉ ([.str "1", .str "2", .str "3", .str "4"] : Column)) := by
  constructor
  · have e0 : pdQuantile (rankFirst ([10, 20, 30, 40, 50] : List ℚ)) 0 = 1 := by
      unfold pdQuantile
      rw [sortRat_rankFirst,
        quantileSorted_oneToN_of_lt _ _ (by norm_num) (by norm_num) (by norm_num)]
      norm_num
    have e1 : pdQuantile (rankFirst ([10, 20, 30, 40, 50] : List ℚ)) (1/4) = 2 := by
      unfold pdQuantile
      rw [sortRat_rankFirst,
        quantileSorted_oneToN_of_lt _ _ (by norm_num) (by norm_num) (by norm_num)]
      norm_num
    have e2 : pdQuantile (rankFirst ([10, 20, 30, 40, 50] : List ℚ)) (1/2) = 3 := by
      unfold pdQuantile
      rw [sortRat_rankFirst,
        quantileSorted_oneToN_of_lt _ _ (by norm_num) (by norm_num) (by norm_num)]
      norm_num
    have e3 : pdQuantile (rankFirst ([10, 20, 30, 40, 50] : List ℚ)) (3/4) = 4 := by
      unfold pdQuantile
      rw [sortRat_rankFirst,
        quantileSorted_oneToN_of_lt _ _ (by norm_num) (by norm_num) (by norm_num)]
      norm_num
    have e4 : pdQuantile (rankFirst ([10, 20, 30, 40, 50] : List ℚ)) 1 = 5 := by
      unfold pdQuantile
      rw [sortRat_rankFirst, quantileSorted_oneToN_one _ (by norm_num)]
      norm_num
    have hrank : rankFirst ([10, 20, 30, 40, 50] : List ℚ) = [1, 2, 3, 4, 5] := by decide
    have hq : pdQcut (rankFirst ([10, 20, 30, 40, 50] : List ℚ))
        (.cuts [0, 1/4, 1/2, 3/4, 1]) none 3 .drop =
        .ok [.interval 1 2, .interval 1 2, .interval 2 3, .interval 3 4, .interval 4 5] := by
      unfold pdQcut
      dsimp only [qspecCuts]
      rw [List.map_cons, List.map_cons, List.map_cons, List.map_cons, List.map_cons,
        List.map_nil, e0, e1, e2, e3, e4, hrank]
      decide
    unfold discretizer discretizerST
    dsimp only
    unfold discLoop
    rw [show dictGet [("a", [PyVal.num 10, .num 20, .num 30, .num 40, .num 50])] "a" =
      some [PyVal.num 10, .num 20, .num 30, .num 40, .num 50] from rfl]
    dsimp only
    rw [show colToRat [PyVal.num 10, .num 20, .num 30, .num 40, .num 50] =
      .ok [10, 20, 30, 40, 50] from rfl]
    dsimp only
    rw [hq]
    decide
  · decide

/-- C6 amended: the default bin labels 1, 2, 3, 4 are substituted exactly
when `labels_for_bin` is the literal string "default" (which is what `fit`
passes by default) — a call with these two arguments is indistinguishable;
an omitted `labels_for_bin` (`None`) instead forwards `labels=None` to
`qcut`, which then labels bins with their intervals. -/
theorem claim_C6_amended (X : PdInput) (cols : List String) (nq : Option QSpec) (prec : ℕ)
    (dropF : Bool) :
    discretizerST X cols nq .defaultStr prec dropF =
      discretizerST X cols nq (.labels [1, 2, 3, 4]) prec dropF := by
  cases X <;> rfl

/-- C7: the discretizer never mutates the caller-supplied frame: whatever
the arguments and however far the loop gets (including every early-error
exit), the final state of `X` is its initial state; the result is built
from the separate copy `new_X`. -/
theorem claim_C7_no_mutation (X : PdInput) (cols : List String) (nq : Option QSpec)
    (la : LabelsArg) (prec : ℕ) (dropF : Bool) :
    (discretizerST X cols nq la prec dropF).2 = X := by
  cases X with
  | nonFrame => rfl
  | frame df =>
    unfold discretizerST
    dsimp only
    rw [discLoop_state]

/-- C8: the rank transform applied before binning produces pairwise
distinct ranks (ties broken by first occurrence: the earlier of two equal
values gets the smaller rank), the discretizer can never fail with the
non-unique-bin-edges error (it always passes `duplicates="drop"`), and on
any column with at least two rows the `qcut` call of the default quartile
configuration succeeds outright. -/
theorem claim_C8_rank_guarantee (col : List ℚ) (i j : ℕ) (X : PdInput) (cols : List String)
    (nq : Option QSpec) (la : LabelsArg) (prec : ℕ) (dropF : Bool) :
    (rankFirst col).Nodup ∧
    (i < j → j < col.length → col.getD i 0 = col.getD j 0 →
      (rankFirst col).getD i 0 < (rankFirst col).getD j 0) ∧
    discretizer X cols nq la prec dropF ≠ .error .nonUniqueEdges ∧
    (2 ≤ col.length →
      (pdQcut (rankFirst col) (.cuts [0, 1/4, 1/2, 3/4, 1]) (some [1, 2, 3, 4]) prec
        .drop).isOk = true) :=
  ⟨rankFirst_nodup col,
   fun hij hj hval => rankFirst_strict_mono col i j (lt_trans hij hj) hj (Or.inr ⟨hval, hij⟩),
   discretizer_ne_nonUnique X cols nq la prec dropF,
   fun h => pdQcut_rankFirst_quartiles_ok col prec h⟩

/-- C8 witness: on the all-duplicates column `[5, 5, 5, 5, 5]` the ranks
at positions 1 and 3 are strictly ordered and the default quartile `qcut`
call succeeds. -/
theorem claim_C8_rank_guarantee_witness :
    ((1 : ℕ) < 3 ∧ (3 : ℕ) < ([5, 5, 5, 5, 5] : List ℚ).length ∧
      ([5, 5, 5, 5, 5] : List ℚ).getD 1 0 = ([5, 5, 5, 5, 5] : List ℚ).getD 3 0 ∧
      2 ≤ ([5, 5, 5, 5, 5] : List ℚ).length) ∧
    (rankFirst [5, 5, 5, 5, 5]).getD 1 0 < (rankFirst [5, 5, 5, 5, 5]).getD 3 0 ∧
    (pdQcut (rankFirst [5, 5, 5, 5, 5]) (.cuts [0, 1/4, 1/2, 3/4, 1]) (some [1, 2, 3, 4]) 3
      .drop).isOk = true := by
  have h := claim_C8_rank_guarantee [5, 5, 5, 5, 5] 1 3 (.frame []) [] none .defaultStr 3 false
  exact ⟨⟨by decide, by decide, by decide, by decide⟩,
    h.2.1 (by decide) (by decide) (by decide), h.2.2.2 (by decide)⟩

/-- C9: `set_params` writes exactly the binding of the first key of the
parameter dict into the stored hyper-parameters — that key now maps to the
first value, every other stored key is untouched, and any further pairs of
the argument are ignored (the result does not depend on them at all). -/
theorem claim_C9_first_param_only (mp params : List (String × ℚ)) (k : String) (v : ℚ)
    (rest : List (String × ℚ)) (h : params = (k, v) :: rest) :
    set_params mp params = .ok (dictSet mp k v) ∧
    dictGet (dictSet mp k v) k = some v ∧
    (∀ k2, k2 ≠ k → dictGet (dictSet mp k v) k2 = dictGet mp k2) := by
  subst h
  exact ⟨rfl, dictGet_dictSet_self mp k v, fun k2 hne => dictGet_dictSet_ne mp k k2 v hne⟩

/-- C9 witness: updating with the two-entry dict `{eta: 5, nchain: 99}`
rewrites only `eta`; `nchain` keeps its stored default. -/
theorem claim_C9_first_param_only_witness :
    ([("eta", (5 : ℚ)), ("nchain", 99)] = ("eta", (5 : ℚ)) :: [("nchain", 99)]) ∧
    set_params defaultModelParams [("eta", 5), ("nchain", 99)] =
      .ok (dictSet defaultModelParams "eta" 5) ∧
    dictGet (dictSet defaultModelParams "eta" 5) "eta" = some 5 ∧
    dictGet (dictSet defaultModelParams "eta" 5) "nchain" =
      dictGet defaultModelParams "nchain" := by
  have h := claim_C9_first_param_only defaultModelParams [("eta", 5), ("nchain", 99)]
    "eta" 5 [("nchain", 99)] rfl
  exact ⟨rfl, h.1, h.2.1, h.2.2 "nchain" (by decide)⟩

/-- C10 counterexample: `predict` on a caller-supplied probability table
leaves that table exactly as it was — in particular its positive-class
column gains no "label" entry. -/
theorem claim_C10_counterexample :
    (predict [((1 : ℤ), [(Sum.inl 0, SVal.q (7/10)), (Sum.inl 1, SVal.q (3/10))])]
        (1/2) 1).2 =
      [((1 : ℤ), [(Sum.inl 0, SVal.q (7/10)), (Sum.inl 1, SVal.q (3/10))])] ∧
    dictGet ((predict [((1 : ℤ), [(Sum.inl 0, SVal.q (7/10)), (Sum.inl 1, SVal.q (3/10))])]
        (1/2) 1).2) 1 =
      some [(Sum.inl 0, SVal.q (7/10)), (Sum.inl 1, SVal.q (3/10))] ∧
    dictGet [(Sum.inl 0, SVal.q (7/10)), (Sum.inl 1, SVal.q (3/10))] (Sum.inr "label") =
      none :=
  ⟨rfl, rfl, rfl⟩

/-- C10 amended: `predict` never touches the caller-supplied probability
table; the "label" entry is written into the fresh `Series` derived from
the positive-class column, and the returned discrete-label value is the
entry stored under "label" in that derived series (the two returned values
share it), not part of the input table. -/
theorem claim_C10_amended (df : ProbTable) (t : ℚ) (pos : ℤ) :
    (predict df t pos).2 = df ∧
    (∀ s lv, (predict df t pos).1 = .ok (s, lv) →
      dictGet s (Sum.inr "label") = some lv) := by
  constructor
  · rfl
  · intro s lv h
    unfold predict at h
    dsimp only at h
    rcases hp : probLoc df pos with e | col
    · rw [hp] at h
      cases h
    · rw [hp] at h
      dsimp only at h
      rw [dictGet_dictSet_self] at h
      dsimp only at h
      injection h with h2
      have hs := congrArg Prod.fst h2
      have hl := congrArg Prod.snd h2
      dsimp only at hs hl
      rw [← hs, ← hl]
      exact dictGet_dictSet_self _ _ _

/-- C10 amended witness: on a one-row table the returned series is the
derived column extended with the "label" entry, the second return value is
that entry, and the caller-supplied table is unchanged; the label array
here evaluates to `[1]`. -/
theorem claim_C10_amended_witness :
    (predict [((1 : ℤ), [(Sum.inl 0, SVal.q (9/10))])] (1/2) 1).2 =
      [((1 : ℤ), [(Sum.inl 0, SVal.q (9/10))])] ∧
    (predict [((1 : ℤ), [(Sum.inl 0, SVal.q (9/10))])] (1/2) 1).1 =
      .ok ([(Sum.inl 0, SVal.q (9/10)),
            (Sum.inr "label", SVal.arr (npWhereGt [(Sum.inl 0, SVal.q (9/10))] (1/2)))],
           SVal.arr (npWhereGt [(Sum.inl 0, SVal.q (9/10))] (1/2))) ∧
    dictGet [(Sum.inl 0, SVal.q (9/10)),
        (Sum.inr "label", SVal.arr (npWhereGt [(Sum.inl 0, SVal.q (9/10))] (1/2)))]
      (Sum.inr "label") = some (SVal.arr (npWhereGt [(Sum.inl 0, SVal.q (9/10))] (1/2))) ∧
    npWhereGt [(Sum.inl 0, SVal.q (9/10))] (1/2) = [1] := by
  have h := claim_C10_amended [((1 : ℤ), [(Sum.inl 0, SVal.q (9/10))])] (1/2) 1
  have hmid : (predict [((1 : ℤ), [(Sum.inl 0, SVal.q (9/10))])] (1/2) 1).1 =
      .ok ([(Sum.inl 0, SVal.q (9/10)),
            (Sum.inr "label", SVal.arr (npWhereGt [(Sum.inl 0, SVal.q (9/10))] (1/2)))],
           SVal.arr (npWhereGt [(Sum.inl 0, SVal.q (9/10))] (1/2))) := rfl
  exact ⟨h.1, hmid, h.2 _ _ hmid, by norm_num [npWhereGt, labelOfSval]⟩

end BRLC
